import Mathlib

/-!
Shallow embedding of `get_sentinel_data.py` (PermanentCropsSegmentation).

The script fetches a paged product catalog, deduplicates products by
acquisition date keeping the highest processing baseline, and downloads
each selected product with a token-refresh retry loop.  Network and
filesystem effects are modelled by explicit oracles:

* the catalog server is a list of `PageOutcome`s, one per HTTP GET that the
  pagination loop would issue (a transport failure or a page of products
  plus the presence of an `@odata.nextLink`);
* the token endpoint's replies are `Option TokenResponse` values
  (`none` models a `requests.RequestException`);
* each download attempt's GET outcome is an `AttemptEnv`.

Python falsiness of `str | None` values (`if not ACCESS_TOKEN`) is modelled
by `truthy` on `Option String`.
-/

/-- Embedding of a catalog product: the fields of the JSON object that
`get_sentinel_data.py` reads (`Id`, `Name`, `ContentDate.Start`, `S3Path`). -/
structure Product where
  id : String
  name : String
  contentDateStart : String
  s3Path : String
deriving Repr, DecidableEq

/-- Numeric value of a decimal digit character (`int` on a digit). -/
def digitVal (c : Char) : Nat := c.toNat - '0'.toNat

/-- Match of the regex `_N(\d{4})_` at the head of a character list:
an underscore, `N`, exactly four decimal digits, an underscore.  Returns the
captured four-digit group as a number (`int(match.group(1))`). -/
def matchAt : List Char → Option Nat
  | '_' :: 'N' :: a :: b :: c :: d :: '_' :: _ =>
    if a.isDigit && b.isDigit && c.isDigit && d.isDigit then
      some (1000 * digitVal a + 100 * digitVal b + 10 * digitVal c + digitVal d)
    else none
  | _ => none

/-- Leftmost match of `_N(\d{4})_` in a character list, as `re.search` finds
it: try each start position from the left. -/
def searchChars : List Char → Option Nat
  | [] => none
  | c :: rest =>
    match matchAt (c :: rest) with
    | some n => some n
    | none => searchChars rest

/-- Embedding of `re.search(r'_N(\d{4})_', name)` followed by
`int(match.group(1))`: the baseline number parsed from a product name,
`none` when the pattern does not occur. -/
def searchBaseline (s : String) : Option Nat := searchChars s.data

/-- Acquisition-date key of a product: `product['ContentDate']['Start'][:10]`,
the first ten characters of the acquisition start timestamp. -/
def dateKey (p : Product) : String := ⟨p.contentDateStart.data.take 10⟩

/-- Entry stored in `products_by_date`: a `(baseline_number, product)` pair. -/
abbrev Entry := Nat × Product

/-- Date key of a stored entry (the key under which the source appends it). -/
def dateOf (e : Entry) : String := dateKey e.2

/-- Groups state of the fetch loop: the `defaultdict(list)` keyed by date, as
an insertion-ordered association list (Python dicts preserve key insertion
order, and appending to an existing key's list leaves the key in place). -/
abbrev Groups := List (String × List Entry)

/-- Embedding of `products_by_date[date].append((baseline_number, product))`:
append the entry to its date's list if the date is already a key, otherwise
add the date as a new last key. -/
def addEntry (gs : Groups) (e : Entry) : Groups :=
  match gs with
  | [] => [(dateOf e, [e])]
  | (d, g) :: rest =>
    if d = dateOf e then (d, g ++ [e]) :: rest
    else (d, g) :: addEntry rest e

/-- Grouping of a stream of parsed entries, in arrival order, into the
insertion-ordered date map. -/
def groupEntries (es : List Entry) : Groups := es.foldl addEntry []

/-- Processing of one fetched product by the loop body: parse the baseline
from the name; on a match append to the date group, otherwise do nothing
(a non-matching product is never stored). -/
def ingest (gs : Groups) (p : Product) : Groups :=
  match searchBaseline p.name with
  | some n => addEntry gs (n, p)
  | none => gs

/-- Step of Python `max` with `key=lambda x: x[0]`: the running best is
replaced only when the new element's key is strictly greater, so on equal
keys the earlier element is kept. -/
def maxStep (best x : Entry) : Entry := if best.1 < x.1 then x else best

/-- Embedding of Python `max(products, key=lambda x: x[0])` on a nonempty
list: scan left to right with `maxStep`, so the first maximal element wins
ties. -/
def pyMax : List Entry → Option Entry
  | [] => none
  | e :: es => some (es.foldl maxStep e)

/-- Embedding of the selection loop of `fetch_products` (dict iteration is
key-insertion order): for each date group keep the product of the entry with
the maximal baseline number. -/
def select_latest (gs : Groups) : List Product :=
  gs.filterMap (fun g => (pyMax g.2).map Prod.snd)

/-- Server-side outcome of one catalog page GET: a transport failure
(`requests.RequestException`), or a page of products together with whether
the response carries an `@odata.nextLink`. -/
inductive PageOutcome where
  | failure
  | ok (products : List Product) (hasNext : Bool)
deriving Repr, DecidableEq

/-- Embedding of the pagination `while url:` loop of `fetch_products`
operating on the grouping state: a failed page stops the loop keeping what
was accumulated; an ok page ingests its products and continues only when a
next-page link is present. -/
def fetchPages (gs : Groups) : List PageOutcome → Groups
  | [] => gs
  | .failure :: _ => gs
  | .ok ps next :: rest =>
    let gs2 := ps.foldl ingest gs
    if next then fetchPages gs2 rest else gs2

/-- Embedding of `fetch_products`: run the pagination loop from the empty
grouping state, then build the per-date maximal-baseline product list.
The function is total: a transport failure truncates the result, it never
raises. -/
def fetch_products (pages : List PageOutcome) : List Product :=
  select_latest (fetchPages [] pages)

/-- Flat list of products delivered by the pages the pagination loop
consumes (the products the loop body iterates over, in arrival order). -/
def crawl : List PageOutcome → List Product
  | [] => []
  | .failure :: _ => []
  | .ok ps next :: rest => ps ++ (if next then crawl rest else [])

/-- Authorization-header presence of each catalog GET the loop issues, in
order.  The source calls `requests.get(url, params=...)` with no headers
argument, so every issued request carries `false` (no bearer header); a
failed request was still issued. -/
def crawlRequests : List PageOutcome → List Bool
  | [] => []
  | .failure :: _ => [false]
  | .ok _ next :: rest => false :: (if next then crawlRequests rest else [])

/-- Whether a page outcome lets the crawl continue: a successfully fetched
page that carries a next-page link. -/
def okNext : PageOutcome → Bool
  | .failure => false
  | .ok _ next => next

/-- Parsed `(baseline, product)` entries of a product stream, keeping only
products whose name matches the baseline pattern. -/
def parsedEntries (ps : List Product) : List Entry :=
  ps.filterMap (fun p => (searchBaseline p.name).map (fun n => (n, p)))

/-- Baseline number of a product with a default of zero for non-matching
names (used only to state comparisons; non-matching products are never
grouped). -/
def baselineOf (p : Product) : Nat := (searchBaseline p.name).getD 0

/-- Lexicographic order on character lists, the order Python string
comparison uses; on ISO `YYYY-MM-DD` date keys it is chronological order. -/
def charsLe : List Char → List Char → Bool
  | [], _ => true
  | _ :: _, [] => false
  | a :: as, b :: bs => if a < b then true else if b < a then false else charsLe as bs

/-- Date-string order: lexicographic on the characters. -/
def dateLe (a b : String) : Bool := charsLe a.data b.data

/-- Truthiness of a Python `str | None` value: `None` and the empty string
are falsy (`if not ACCESS_TOKEN`). -/
def truthy : Option String → Bool
  | none => false
  | some s => !(s == "")

/-- Body of a successful token-endpoint reply: the two fields the source
reads with `.get`, either of which the server may omit. -/
structure TokenResponse where
  access_token : Option String
  refresh_token : Option String
deriving Repr, DecidableEq

/-- Process-wide token state: the globals `ACCESS_TOKEN` and
`REFRESH_TOKEN`. -/
structure Tokens where
  access : Option String
  refresh : Option String
deriving Repr, DecidableEq

/-- Embedding of `get_access_token`: on a successful POST return the two
token fields as replied; on a `RequestException` (`resp = none`) return
`(None, None)`. -/
def get_access_token (resp : Option TokenResponse) : Option String × Option String :=
  match resp with
  | some info => (info.access_token, info.refresh_token)
  | none => (none, none)

/-- Embedding of `regenerate_access_token`: on a successful POST of the
`refresh_token` grant return the replied `access_token` field; on a
`RequestException` (`resp = none`) return `None` — never an exception. -/
def regenerate_access_token (resp : Option TokenResponse) : Option String :=
  match resp with
  | some info => info.access_token
  | none => none

/-- Message of the exception `handle_token_expiry` raises when
re-authentication fails. -/
def reauthMsg : String := "Re-authentication failed. Please check your credentials."

/-- Embedding of `handle_token_expiry`.  `rResp` is the token endpoint's
reply to the `refresh_token` grant for the current refresh token; `aResp`
its reply to the `password` grant for the freshly reloaded credentials
(`load_credentials(conf_dir)` precedes that call in the fallback branch).
First `ACCESS_TOKEN = regenerate_access_token(REFRESH_TOKEN)`; if falsy,
re-authenticate, replacing both tokens; if the new access token is falsy
too, raise. -/
def handle_token_expiry (rResp aResp : Option TokenResponse) (t : Tokens) :
    Except String Tokens :=
  let access := regenerate_access_token rResp
  if truthy access then Except.ok { access := access, refresh := t.refresh }
  else
    let pair := get_access_token aResp
    if truthy pair.1 then Except.ok { access := pair.1, refresh := pair.2 }
    else Except.error reauthMsg

/-- Environment of one download attempt: whether the bearer GET succeeds
(`raise_for_status` included), the token endpoint's replies used by
`handle_token_expiry` if the attempt fails, and the text of the transport
exception. -/
structure AttemptEnv where
  getOk : Bool
  refreshResp : Option TokenResponse
  authResp : Option TokenResponse
  err : String

/-- Embedding of the `while attempt < 3:` retry loop of `download_product`.
Each iteration issues one bearer GET with the current `ACCESS_TOKEN`
(recorded in the returned trace); on failure it runs `handle_token_expiry`
(whose exception propagates), increments `attempt`, and raises `Too many
failed attempts for <name>: <err>` once `attempt >= 3`, otherwise retries.
The loop runs at most `3 - attempt` more iterations, which is the
structural `fuel` argument; callers keep `fuel = 3 - attempt`. -/
def downloadLoop (name : String) (envs : Nat → AttemptEnv) :
    Nat → Nat → Tokens → List (Option String) × Except String Tokens
  | 0, _, t => ([], Except.ok t)
  | fuel + 1, attempt, t =>
    let env := envs attempt
    if env.getOk then
      ([t.access], Except.ok t)
    else
      match handle_token_expiry env.refreshResp env.authResp t with
      | Except.error msg => ([t.access], Except.error msg)
      | Except.ok t2 =>
        if attempt + 1 ≥ 3 then
          ([t.access], Except.error
            ("Too many failed attempts for " ++ name ++ ": " ++ env.err))
        else
          let r := downloadLoop name envs fuel (attempt + 1) t2
          (t.access :: r.1, r.2)

/-- Embedding of `download_product`: when a file already exists at the
target path, print and return — no request is issued and the token state is
untouched; otherwise enter the retry loop with `attempt = 0`.  The first
component lists the `ACCESS_TOKEN` value carried by each issued GET. -/
def download_product (fileExists : Bool) (name : String) (envs : Nat → AttemptEnv)
    (t : Tokens) : List (Option String) × Except String Tokens :=
  if fileExists then ([], Except.ok t) else downloadLoop name envs 3 0 t

/-- Work item of the module-level download loop: a selected product's
filesystem state, display name and per-attempt network environment. -/
structure WorkItem where
  fileExists : Bool
  name : String
  envs : Nat → AttemptEnv

/-- Embedding of the module-level `for product in products:` loop.  There is
no `try/except` around `download_product`, so an exception from it
propagates and the remaining items are not processed. -/
def run_downloads : Tokens → List WorkItem → List (Option String) × Except String Tokens
  | t, [] => ([], Except.ok t)
  | t, it :: rest =>
    match download_product it.fileExists it.name it.envs t with
    | (tr, Except.ok t2) =>
      match run_downloads t2 rest with
      | (tr2, out) => (tr ++ tr2, out)
    | (tr, Except.error e) => (tr, Except.error e)

/-- Embedding of the module-level token bootstrap (`if not ACCESS_TOKEN:`):
load credentials and exchange them for a token pair, adopting whatever the
call returns — including `(None, None)` when it fails; the script then
proceeds to the downloads regardless. -/
def init_tokens (t0 : Tokens) (aResp : Option TokenResponse) : Tokens :=
  if truthy t0.access then t0
  else
    { access := (get_access_token aResp).1, refresh := (get_access_token aResp).2 }

/-- Externally visible events of one script run, in order: a catalog GET
(with whether it carries an Authorization header), a read of the credential
file, a POST to the token endpoint, and a bearer download GET carrying the
current access token. -/
inductive Ev where
  | catalogGet (auth : Bool)
  | credLoad
  | tokenRequest
  | downloadGet (token : Option String)
deriving Repr, DecidableEq

/-- Predicate on events: is this a catalog GET. -/
def isCatalogGet : Ev → Bool
  | .catalogGet _ => true
  | _ => false

/-- Predicate on events: does this event touch the credential store or the
token endpoint. -/
def isCredEvent : Ev → Bool
  | .credLoad => true
  | .tokenRequest => true
  | _ => false

/-- Events of the module-level token bootstrap: nothing when a truthy
access token already exists, otherwise a credential load followed by a
token request. -/
def initEvents (t0 : Tokens) : List Ev :=
  if truthy t0.access then [] else [Ev.credLoad, Ev.tokenRequest]

/-- Result of a whole script run: its event trace, the fetched product
list, and the outcome of the download loop. -/
structure ScriptRun where
  trace : List Ev
  products : List Product
  outcome : Except String Tokens

/-- Embedding of the module-level statement sequence: fetch the catalog
(line 230), then bootstrap tokens (lines 234-236), then download each
selected product in order (lines 240-242).  `fe` tells whether a product's
target file already exists and `envs` supplies each product's per-attempt
network environment. -/
def script (pages : List PageOutcome) (t0 : Tokens) (aResp : Option TokenResponse)
    (fe : Product → Bool) (envs : Product → Nat → AttemptEnv) : ScriptRun :=
  let products := fetch_products pages
  let t1 := init_tokens t0 aResp
  let dl := run_downloads t1
    (products.map (fun p => { fileExists := fe p, name := p.name, envs := envs p }))
  { trace := (crawlRequests pages).map Ev.catalogGet ++ initEvents t0 ++
      dl.1.map Ev.downloadGet
    products := products
    outcome := dl.2 }

/-!  Concrete fixtures used by per-claim witnesses and counterexamples. -/

/-- Fixture: a `2017-05-01` product at processing baseline 0400. -/
def c2prodA : Product :=
  { id := "ida", name := "A_N0400_B", contentDateStart := "2017-05-01T09:00:00.000Z", s3Path := "sa" }

/-- Fixture: a `2017-05-01` product at processing baseline 0500. -/
def c2prodB : Product :=
  { id := "idb", name := "A_N0500_B", contentDateStart := "2017-05-01T09:10:00.000Z", s3Path := "sb" }

/-- Fixture: a single catalog page holding both `2017-05-01` products. -/
def c2pages : List PageOutcome := [PageOutcome.ok [c2prodA, c2prodB] false]

/-- Fixture: a `2017-02-01` product. -/
def c3prodLate : Product :=
  { id := "id1", name := "A_N0500_B", contentDateStart := "2017-02-01T00:00:00.000Z", s3Path := "s1" }

/-- Fixture: a `2017-01-01` product. -/
def c3prodEarly : Product :=
  { id := "id2", name := "C_N0500_D", contentDateStart := "2017-01-01T00:00:00.000Z", s3Path := "s2" }

/-- Fixture: one page delivering the later date before the earlier one. -/
def c3pages : List PageOutcome := [PageOutcome.ok [c3prodLate, c3prodEarly] false]

/-- Fixture: two pages delivering the dates in ascending order. -/
def c3wpages : List PageOutcome :=
  [PageOutcome.ok [c3prodEarly] true, PageOutcome.ok [c3prodLate] false]

/-- Fixture: first-arriving product of a baseline tie on `2017-03-03`. -/
def c4prodFirst : Product :=
  { id := "id1", name := "A_N0500_B", contentDateStart := "2017-03-03T00:00:00.000Z", s3Path := "s1" }

/-- Fixture: second-arriving product of the same date with the same baseline. -/
def c4prodSecond : Product :=
  { id := "id2", name := "C_N0500_D", contentDateStart := "2017-03-03T00:00:00.000Z", s3Path := "s2" }

/-- Fixture: one page delivering both tied products in order. -/
def c4pages : List PageOutcome := [PageOutcome.ok [c4prodFirst, c4prodSecond] false]

/-- Fixture: a product whose display name lacks the baseline pattern. -/
def c5prodBad : Product :=
  { id := "id1", name := "S2A_MSIL2A_T33SVB", contentDateStart := "2017-01-01T00:00:00.000Z", s3Path := "s1" }

/-- Fixture: one page delivering only the malformed-name product. -/
def c5pages : List PageOutcome := [PageOutcome.ok [c5prodBad] false]

/-- Fixture: a well-formed product for the C5 witness. -/
def c5prodGood : Product :=
  { id := "id2", name := "A_N0123_B", contentDateStart := "2017-01-02T00:00:00.000Z", s3Path := "s2" }

/-- Fixture: one page delivering only the well-formed product. -/
def c5wpages : List PageOutcome := [PageOutcome.ok [c5prodGood] false]

/-- Fixture: an attempt environment whose GET fails but whose token refresh
succeeds. -/
def c1failEnv : AttemptEnv :=
  { getOk := false
    refreshResp := some { access_token := some "tok2", refresh_token := some "r2" }
    authResp := none
    err := "boom" }

/-- Fixture: an attempt environment whose GET succeeds. -/
def c1okEnv : AttemptEnv :=
  { getOk := true, refreshResp := none, authResp := none, err := "" }

/-- Fixture: a work item whose three attempts all fail. -/
def c1badItem : WorkItem :=
  { fileExists := false, name := "P1", envs := fun _ => c1failEnv }

/-- Fixture: a work item that would download at the first attempt. -/
def c1goodItem : WorkItem :=
  { fileExists := false, name := "P2", envs := fun _ => c1okEnv }

/-- Fixture: a first attempt that fails with a successful refresh, then a
succeeding retry. -/
def c6envs : Nat → AttemptEnv := fun k =>
  if k = 0 then
    { getOk := false
      refreshResp := some { access_token := some "fresh", refresh_token := some "r2" }
      authResp := none
      err := "expired" }
  else { getOk := true, refreshResp := none, authResp := none, err := "" }

/-- Fixture: a product for the C6 counterexample run. -/
def c6prod : Product :=
  { id := "id1", name := "A_N0500_B", contentDateStart := "2017-05-01T00:00:00.000Z", s3Path := "s1" }

/-- Fixture: a product delivered before the pagination failure. -/
def c9prod : Product :=
  { id := "id1", name := "A_N0500_B", contentDateStart := "2017-04-01T00:00:00.000Z", s3Path := "s1" }

/-- Fixture: the page consumed before the failure, carrying a next link. -/
def c9pre : List PageOutcome := [PageOutcome.ok [c9prod] true]

/-- Fixture: a product on a page after the failure, never reached. -/
def c9postProd : Product :=
  { id := "id2", name := "A_N0600_B", contentDateStart := "2017-04-02T00:00:00.000Z", s3Path := "s2" }

/-- Fixture: pages following the failed request. -/
def c9post : List PageOutcome := [PageOutcome.ok [c9postProd] false]

/-- Fixture: a product for the C10 witness run. -/
def c10prod : Product :=
  { id := "id1", name := "A_N0500_B", contentDateStart := "2017-05-01T00:00:00.000Z", s3Path := "s1" }

/-- Fixture: a one-page catalog for the C10 witness run. -/
def c10pages : List PageOutcome := [PageOutcome.ok [c10prod] false]

/-- Fixture: all download attempts succeed. -/
def c10envs : Product → Nat → AttemptEnv :=
  fun _ _ => { getOk := true, refreshResp := none, authResp := none, err := "" }

/-- Entries of a stream holding a given date key, in stream order. -/
def entriesFor (es : List Entry) (d : String) : List Entry :=
  es.filter (fun x => dateOf x == d)

/-- Invariant of the insertion-ordered date map after ingesting the entry
stream `es`: keys are distinct, each key's group is exactly the stream's
entries of that date in arrival order, and the key set is exactly the set of
dates occurring in the stream. -/
def MapInv (es : List Entry) (gs : Groups) : Prop :=
  (gs.map Prod.fst).Nodup ∧
  (∀ d g, (d, g) ∈ gs → g = entriesFor es d) ∧
  (∀ e ∈ es, dateOf e ∈ gs.map Prod.fst) ∧
  (∀ d ∈ gs.map Prod.fst, ∃ e ∈ es, dateOf e = d)

/-!  Bridging lemmas: the operational pagination loop equals grouping the
flat crawled product stream. -/

/-- The pagination loop is the fold of `ingest` over the crawled stream. -/
theorem fetchPages_eq_foldl (pages : List PageOutcome) (gs : Groups) :
    fetchPages gs pages = (crawl pages).foldl ingest gs := by
  induction pages generalizing gs with
  | nil => rfl
  | cons pg rest ih =>
    cases pg with
    | failure => rfl
    | ok ps next =>
      cases next with
      | true => simp [fetchPages, crawl, List.foldl_append, ih]
      | false => simp [fetchPages, crawl, List.foldl_append]

/-- Folding `ingest` over products equals folding `addEntry` over the
parsed entries. -/
theorem foldl_ingest_eq (ps : List Product) (gs : Groups) :
    ps.foldl ingest gs = (parsedEntries ps).foldl addEntry gs := by
  induction ps generalizing gs with
  | nil => rfl
  | cons p rest ih =>
    unfold parsedEntries
    cases h : searchBaseline p.name with
    | none => simp [List.foldl, ingest, h, List.filterMap_cons, ih, parsedEntries]
    | some n => simp [List.foldl, ingest, h, List.filterMap_cons, ih, parsedEntries]

/-- Closed form of `fetch_products`: select from the grouped parsed
entries of the crawled stream. -/
theorem fetch_products_eq (pages : List PageOutcome) :
    fetch_products pages = select_latest (groupEntries (parsedEntries (crawl pages))) := by
  unfold fetch_products groupEntries
  rw [fetchPages_eq_foldl, foldl_ingest_eq]

/-!  Characterization of the insertion-ordered date map. -/

/-- Membership in `entriesFor`. -/
theorem mem_entriesFor {es : List Entry} {d : String} {x : Entry} :
    x ∈ entriesFor es d ↔ x ∈ es ∧ dateOf x = d := by
  simp [entriesFor, List.mem_filter]

/-- Appending one entry extends exactly its own date's entry list. -/
theorem entriesFor_append (es : List Entry) (e : Entry) (d : String) :
    entriesFor (es ++ [e]) d =
      entriesFor es d ++ (if dateOf e = d then [e] else []) := by
  by_cases h : dateOf e = d <;> simp [entriesFor, List.filter_append, h]

/-- Keys after `addEntry`: unchanged when the date is already present,
otherwise the date is appended as a new last key. -/
theorem addEntry_keys (gs : Groups) (e : Entry) :
    (addEntry gs e).map Prod.fst =
      if dateOf e ∈ gs.map Prod.fst then gs.map Prod.fst
      else gs.map Prod.fst ++ [dateOf e] := by
  induction gs with
  | nil => simp [addEntry]
  | cons p rest ih =>
    obtain ⟨d, g⟩ := p
    by_cases h : d = dateOf e
    · simp [addEntry, h]
    · have hne : dateOf e ≠ d := fun hc => h hc.symm
      by_cases hm : dateOf e ∈ rest.map Prod.fst <;>
        simp [addEntry, h, ih, hne, hm]

/-- Where a pair of `addEntry gs e` comes from: it was already in `gs`, or
it is the date's group extended with `e`, or it is the fresh singleton group
of a previously absent date. -/
theorem addEntry_mem {gs : Groups} {e : Entry} {d : String} {g : List Entry}
    (h : (d, g) ∈ addEntry gs e) :
    (d, g) ∈ gs ∨
      (d = dateOf e ∧
        ((∃ g0, (d, g0) ∈ gs ∧ g = g0 ++ [e]) ∨
          (dateOf e ∉ gs.map Prod.fst ∧ g = [e]))) := by
  induction gs with
  | nil =>
    simp [addEntry] at h
    exact Or.inr ⟨h.1, Or.inr ⟨by simp, h.2⟩⟩
  | cons p rest ih =>
    obtain ⟨d1, g1⟩ := p
    by_cases h1 : d1 = dateOf e
    · simp [addEntry, h1] at h
      rcases h with ⟨hd, hg⟩ | hmem
      · exact Or.inr ⟨hd.symm ▸ h1 ▸ rfl, Or.inl ⟨g1, by simp [hd, h1], hg⟩⟩
      · exact Or.inl (List.mem_cons_of_mem _ hmem)
    · simp [addEntry, h1] at h
      rcases h with ⟨hd, hg⟩ | hmem
      · exact Or.inl (by simp [hd, hg])
      · rcases ih hmem with hin | ⟨hd, hcase⟩
        · exact Or.inl (List.mem_cons_of_mem _ hin)
        · refine Or.inr ⟨hd, ?_⟩
          rcases hcase with ⟨g0, hg0, hg⟩ | ⟨habs, hg⟩
          · exact Or.inl ⟨g0, List.mem_cons_of_mem _ hg0, hg⟩
          · refine Or.inr ⟨?_, hg⟩
            simp only [List.map_cons, List.mem_cons]
            rintro (hc | hc)
            · exact h1 hc.symm
            · exact habs hc

/-- A group of a different date survives `addEntry` unchanged. -/
theorem addEntry_mem_of_ne {gs : Groups} {e : Entry} {d : String} {g : List Entry}
    (h : (d, g) ∈ gs) (hne : d ≠ dateOf e) : (d, g) ∈ addEntry gs e := by
  induction gs with
  | nil => cases h
  | cons p rest ih =>
    obtain ⟨d1, g1⟩ := p
    by_cases h1 : d1 = dateOf e
    · rcases List.mem_cons.1 h with hh | hm
      · exact absurd (congrArg Prod.fst hh) (by simpa [h1] using hne)
      · simp [addEntry, h1]
        exact Or.inr hm
    · rcases List.mem_cons.1 h with hh | hm
      · simp [addEntry, h1]
        exact Or.inl (by simpa using hh)
      · simp [addEntry, h1]
        exact Or.inr (ih hm)

/-- The group of the inserted entry's own date gets `e` appended (date keys
assumed distinct, as the map invariant guarantees). -/
theorem addEntry_mem_append {gs : Groups} {e : Entry} {g : List Entry}
    (hnd : (gs.map Prod.fst).Nodup) (h : (dateOf e, g) ∈ gs) :
    (dateOf e, g ++ [e]) ∈ addEntry gs e := by
  induction gs with
  | nil => cases h
  | cons p rest ih =>
    obtain ⟨d1, g1⟩ := p
    simp only [List.map_cons, List.nodup_cons] at hnd
    by_cases h1 : d1 = dateOf e
    · rcases List.mem_cons.1 h with hh | hm
      · rw [Prod.mk.injEq] at hh
        simp [addEntry, h1, hh.2]
      · exfalso
        apply hnd.1
        rw [h1]
        exact List.mem_map_of_mem Prod.fst hm
    · rcases List.mem_cons.1 h with hh | hm
      · exact absurd (congrArg Prod.fst hh).symm h1
      · simp [addEntry, h1]
        exact Or.inr (ih hnd.2 hm)

/-- With distinct keys, a key determines its group. -/
theorem nodupKeys_val_unique {gs : Groups} {d : String} {a b : List Entry}
    (hnd : (gs.map Prod.fst).Nodup) (h1 : (d, a) ∈ gs) (h2 : (d, b) ∈ gs) :
    a = b := by
  induction gs with
  | nil => cases h1
  | cons p rest ih =>
    obtain ⟨d1, g1⟩ := p
    simp only [List.map_cons, List.nodup_cons] at hnd
    rcases List.mem_cons.1 h1 with hh1 | hm1 <;> rcases List.mem_cons.1 h2 with hh2 | hm2
    · rw [Prod.mk.injEq] at hh1 hh2
      rw [hh1.2, hh2.2]
    · rw [Prod.mk.injEq] at hh1
      exact absurd (hh1.1 ▸ List.mem_map_of_mem Prod.fst hm2) hnd.1
    · rw [Prod.mk.injEq] at hh2
      exact absurd (hh2.1 ▸ List.mem_map_of_mem Prod.fst hm1) hnd.1
    · exact ih hnd.2 hm1 hm2

/-- `addEntry` preserves the map invariant. -/
theorem inv_addEntry {es : List Entry} {gs : Groups} (h : MapInv es gs) (e : Entry) :
    MapInv (es ++ [e]) (addEntry gs e) := by
  obtain ⟨h1, h2, h3, h4⟩ := h
  have hnd : ((addEntry gs e).map Prod.fst).Nodup := by
    rw [addEntry_keys]
    by_cases hm : dateOf e ∈ gs.map Prod.fst
    · simpa [hm] using h1
    · simp only [hm, if_false]
      rw [List.nodup_append]
      exact ⟨h1, List.nodup_singleton _, by
        intro a ha hb
        rw [List.mem_singleton] at hb
        exact hm (hb ▸ ha)⟩
  refine ⟨hnd, ?_, ?_, ?_⟩
  · intro d g hmem
    rcases addEntry_mem hmem with hin | ⟨hd, hcase⟩
    · have hg : g = entriesFor es d := h2 d g hin
      have hne : dateOf e ≠ d := by
        intro hde
        subst hde
        have h5 := addEntry_mem_append h1 hin
        have : g = g ++ [e] := nodupKeys_val_unique hnd hmem h5
        exact absurd (congrArg List.length this) (by simp)
      rw [entriesFor_append, if_neg hne, List.append_nil, hg]
    · rcases hcase with ⟨g0, hg0, hg⟩ | ⟨habs, hg⟩
      · rw [entriesFor_append, if_pos hd.symm, hg, h2 d g0 hg0]
      · have hemp : entriesFor es d = [] := by
          rw [List.eq_nil_iff_forall_not_mem]
          intro x hx
          rw [mem_entriesFor] at hx
          have hk := h3 x hx.1
          rw [hx.2, hd] at hk
          exact habs hk
        rw [entriesFor_append, if_pos hd.symm, hemp, hg, List.nil_append]
  · intro x hx
    rcases List.mem_append.1 hx with hxe | hxe
    · have hk := h3 x hxe
      rw [addEntry_keys]
      by_cases hm : dateOf e ∈ gs.map Prod.fst
      · simpa [hm] using hk
      · simp only [hm, if_false]
        exact List.mem_append_left _ hk
    · rw [List.mem_singleton] at hxe
      subst hxe
      rw [addEntry_keys]
      by_cases hm : dateOf x ∈ gs.map Prod.fst
      · simp [hm]
      · simp [hm]
  · intro d hd
    rw [addEntry_keys] at hd
    by_cases hm : dateOf e ∈ gs.map Prod.fst
    · rw [if_pos hm] at hd
      obtain ⟨x, hx, hxd⟩ := h4 d hd
      exact ⟨x, List.mem_append_left _ hx, hxd⟩
    · rw [if_neg hm] at hd
      rcases List.mem_append.1 hd with hdk | hdk
      · obtain ⟨x, hx, hxd⟩ := h4 d hdk
        exact ⟨x, List.mem_append_left _ hx, hxd⟩
      · rw [List.mem_singleton] at hdk
        exact ⟨e, List.mem_append_right _ (List.mem_singleton_self e), hdk.symm⟩

/-- The grouping of any entry stream satisfies the map invariant. -/
theorem inv_groupEntries (es : List Entry) : MapInv es (groupEntries es) := by
  induction es using List.reverseRecOn with
  | nil =>
    refine ⟨by simp [groupEntries], ?_, by simp, by simp [groupEntries]⟩
    intro d g hmem
    simp [groupEntries] at hmem
  | append_singleton es e ih =>
    have hstep : groupEntries (es ++ [e]) = addEntry (groupEntries es) e := by
      simp [groupEntries, List.foldl_append]
    rw [hstep]
    exact inv_addEntry ih e

/-!  Specification of Python `max` (first maximal element wins). -/

/-- The fold of `maxStep` returns an element of the list such that every
element strictly before its selected occurrence has a strictly smaller key
and every element of the list has a key at most its key. -/
theorem foldl_maxStep_spec (l : List Entry) (a : Entry) :
    ∃ pre post, a :: l = pre ++ (l.foldl maxStep a) :: post ∧
      (∀ y ∈ pre, y.1 < (l.foldl maxStep a).1) ∧
      (∀ y ∈ a :: l, y.1 ≤ (l.foldl maxStep a).1) := by
  induction l generalizing a with
  | nil => exact ⟨[], [], by simp, by simp, by simp⟩
  | cons x l ih =>
    by_cases hx : a.1 < x.1
    · have hstep : (x :: l).foldl maxStep a = l.foldl maxStep x := by
        simp [List.foldl, maxStep, hx]
      obtain ⟨pre, post, hdec, hpre, hle⟩ := ih x
      refine ⟨a :: pre, post, ?_, ?_, ?_⟩
      · rw [hstep, List.cons_append, ← hdec]
      · intro y hy
        rcases List.mem_cons.1 hy with hy | hy
        · subst hy
          rw [hstep]
          exact lt_of_lt_of_le hx (hle x (List.mem_cons_self x l))
        · rw [hstep]
          exact hpre y hy
      · intro y hy
        rw [hstep]
        rcases List.mem_cons.1 hy with hy | hy
        · subst hy
          exact le_of_lt (lt_of_lt_of_le hx (hle x (List.mem_cons_self x l)))
        · exact hle y hy
    · have hstep : (x :: l).foldl maxStep a = l.foldl maxStep a := by
        simp [List.foldl, maxStep, hx]
      obtain ⟨pre, post, hdec, hpre, hle⟩ := ih a
      cases pre with
      | nil =>
        have hm : l.foldl maxStep a = a := by
          have := congrArg (fun t => t.head?) hdec
          simpa using this.symm
        refine ⟨[], x :: l, by simp [hstep, hm], by simp, ?_⟩
        intro y hy
        rw [hstep, hm]
        rcases List.mem_cons.1 hy with hy | hy
        · subst hy; exact le_refl _
        · rcases List.mem_cons.1 hy with hy | hy
          · subst hy; exact le_of_not_lt hx
          · have := hle y (List.mem_cons_of_mem a hy)
            rw [hm] at this
            exact this
      | cons p0 pre =>
        have hp0 : p0 = a ∧ l = pre ++ (l.foldl maxStep a) :: post := by
          rw [List.cons_append] at hdec
          injection hdec with i1 i2
          exact ⟨i1.symm, i2⟩
        refine ⟨a :: x :: pre, post, ?_, ?_, ?_⟩
        · rw [hstep, List.cons_append, List.cons_append, ← hp0.2]
        · intro y hy
          rw [hstep]
          have ha : a.1 < (l.foldl maxStep a).1 := by
            have := hpre p0 (List.mem_cons_self p0 pre)
            rw [hp0.1] at this
            exact this
          rcases List.mem_cons.1 hy with hy | hy
          · subst hy; exact ha
          · rcases List.mem_cons.1 hy with hy | hy
            · subst hy
              exact lt_of_le_of_lt (le_of_not_lt hx) ha
            · exact hpre y (List.mem_cons_of_mem p0 hy)
        · intro y hy
          rw [hstep]
          rcases List.mem_cons.1 hy with hy | hy
          · rw [hy]
            exact hle a (List.mem_cons_self a l)
          · rcases List.mem_cons.1 hy with hy | hy
            · rw [hy]
              exact le_trans (le_of_not_lt hx) (hle a (List.mem_cons_self a l))
            · exact hle y (List.mem_cons_of_mem a hy)

/-- The selected entry of a nonempty group is a member of the group. -/
theorem pyMax_mem {g : List Entry} {m : Entry} (h : pyMax g = some m) : m ∈ g := by
  cases g with
  | nil => cases h
  | cons a l =>
    obtain ⟨pre, post, hdec, _, _⟩ := foldl_maxStep_spec l a
    have hm : l.foldl maxStep a = m := by
      simpa [pyMax] using h
    rw [hm] at hdec
    rw [hdec]
    exact List.mem_append_right pre (List.mem_cons_self m post)

/-- Every entry of the group has a key at most the selected entry's key. -/
theorem pyMax_le {g : List Entry} {m : Entry} (h : pyMax g = some m) :
    ∀ y ∈ g, y.1 ≤ m.1 := by
  cases g with
  | nil => cases h
  | cons a l =>
    obtain ⟨_, _, _, _, hle⟩ := foldl_maxStep_spec l a
    have hm : l.foldl maxStep a = m := by
      simpa [pyMax] using h
    rw [hm] at hle
    exact hle

/-- The selected entry is the first of the group attaining its key: the
group splits as `pre ++ m :: post` with everything in `pre` strictly
smaller. -/
theorem pyMax_first {g : List Entry} {m : Entry} (h : pyMax g = some m) :
    ∃ pre post, g = pre ++ m :: post ∧ ∀ y ∈ pre, y.1 < m.1 := by
  cases g with
  | nil => cases h
  | cons a l =>
    obtain ⟨pre, post, hdec, hpre, _⟩ := foldl_maxStep_spec l a
    have hm : l.foldl maxStep a = m := by
      simpa [pyMax] using h
    rw [hm] at hdec hpre
    exact ⟨pre, post, hdec, hpre⟩

/-- A nonempty group has a selected entry. -/
theorem pyMax_isSome {g : List Entry} (h : g ≠ []) : ∃ m, pyMax g = some m := by
  cases g with
  | nil => exact absurd rfl h
  | cons a l => exact ⟨l.foldl maxStep a, rfl⟩

/-- Membership in the selection: every selected product is the second
component of the `pyMax` of some group. -/
theorem mem_select_latest {gs : Groups} {q : Product} (h : q ∈ select_latest gs) :
    ∃ d g m, (d, g) ∈ gs ∧ pyMax g = some m ∧ m.2 = q := by
  obtain ⟨⟨d, g⟩, hmem, hf⟩ := List.mem_filterMap.1 h
  obtain ⟨m, hm, hq⟩ := Option.map_eq_some'.1 hf
  exact ⟨d, g, m, hmem, hm, hq⟩

/-- The dates of the selected products are exactly the group keys, in
order, whenever every group is nonempty and holds only entries of its own
date. -/
theorem select_latest_map_dateKey {gs : Groups}
    (hne : ∀ p ∈ gs, p.2 ≠ [])
    (hdt : ∀ p ∈ gs, ∀ x ∈ p.2, dateOf x = p.1) :
    (select_latest gs).map dateKey = gs.map Prod.fst := by
  induction gs with
  | nil => rfl
  | cons p rest ih =>
    obtain ⟨d, g⟩ := p
    obtain ⟨m, hm⟩ := pyMax_isSome (hne (d, g) (List.mem_cons_self _ _))
    have hd : dateKey m.2 = d :=
      hdt (d, g) (List.mem_cons_self _ _) m (pyMax_mem hm)
    have hrest := ih (fun p hp => hne p (List.mem_cons_of_mem _ hp))
      (fun p hp => hdt p (List.mem_cons_of_mem _ hp))
    simp [select_latest, List.filterMap_cons, hm] at hrest ⊢
    exact ⟨hd, hrest⟩

/-- Membership in the parsed entry stream. -/
theorem mem_parsedEntries {ps : List Product} {n : Nat} {p : Product} :
    (n, p) ∈ parsedEntries ps ↔ p ∈ ps ∧ searchBaseline p.name = some n := by
  constructor
  · intro h
    obtain ⟨q, hq, hf⟩ := List.mem_filterMap.1 h
    obtain ⟨k, hk, hpair⟩ := Option.map_eq_some'.1 hf
    injection hpair with h1 h2
    subst h2
    subst h1
    exact ⟨hq, hk⟩
  · intro ⟨hq, hk⟩
    exact List.mem_filterMap.2 ⟨p, hq, by rw [hk]; rfl⟩

/-- Group keys come out sorted when the entry stream's dates arrive in
non-decreasing order. -/
theorem groupEntries_keys_sorted {es : List Entry}
    (h : (es.map dateOf).Pairwise (fun a b => dateLe a b = true)) :
    ((groupEntries es).map Prod.fst).Pairwise (fun a b => dateLe a b = true) := by
  induction es using List.reverseRecOn with
  | nil => simp [groupEntries]
  | append_singleton es e ih =>
    have hstep : groupEntries (es ++ [e]) = addEntry (groupEntries es) e := by
      simp [groupEntries, List.foldl_append]
    rw [List.map_append, List.pairwise_append] at h
    have hsorted := ih h.1
    have hbound : ∀ x ∈ es, dateLe (dateOf x) (dateOf e) = true := by
      intro x hx
      exact h.2.2 (dateOf x) (List.mem_map_of_mem dateOf hx) (dateOf e) (by simp)
    rw [hstep, addEntry_keys]
    by_cases hm : dateOf e ∈ (groupEntries es).map Prod.fst
    · simpa [hm] using hsorted
    · rw [if_neg hm, List.pairwise_append]
      refine ⟨hsorted, List.pairwise_singleton _ _, ?_⟩
      intro d hd d' hd'
      rw [List.mem_singleton] at hd'
      subst hd'
      obtain ⟨x, hx, hxd⟩ := (inv_groupEntries es).2.2.2 d hd
      rw [← hxd]
      exact hbound x hx

/-!  Lemmas about the token-refresh retry loop. -/

/-- When `handle_token_expiry` returns (rather than raising), the adopted
access token is truthy: either the refreshed token or the re-authenticated
one, both checked by the source before proceeding. -/
theorem handle_token_expiry_ok_truthy {r a : Option TokenResponse} {t t2 : Tokens}
    (h : handle_token_expiry r a t = Except.ok t2) : truthy t2.access = true := by
  unfold handle_token_expiry at h
  by_cases h1 : truthy (regenerate_access_token r) = true
  · rw [if_pos h1] at h
    injection h with h
    rw [← h]
    exact h1
  · rw [if_neg h1] at h
    by_cases h2 : truthy (get_access_token a).1 = true
    · rw [if_pos h2] at h
      injection h with h
      rw [← h]
      exact h2
    · rw [if_neg h2] at h
      cases h

/-- Started from a truthy access token, every attempt of the retry loop
carries a truthy token: failures replace the token via
`handle_token_expiry`, which only returns truthy tokens. -/
theorem downloadLoop_trace_truthy (name : String) (envs : Nat → AttemptEnv) :
    ∀ (fuel attempt : Nat) (t : Tokens), truthy t.access = true →
      ∀ x ∈ (downloadLoop name envs fuel attempt t).1, truthy x = true := by
  intro fuel
  induction fuel with
  | zero => intro attempt t ht x hx; cases hx
  | succ fuel ih =>
    intro attempt t ht x hx
    by_cases hok : (envs attempt).getOk = true
    · simp [downloadLoop, hok] at hx
      rw [hx]
      exact ht
    · simp only [downloadLoop, Bool.not_eq_true] at hx
      rw [Bool.not_eq_true] at hok
      rw [if_neg (by rw [hok]; exact Bool.false_ne_true)] at hx
      cases hh : handle_token_expiry (envs attempt).refreshResp (envs attempt).authResp t with
      | error msg =>
        rw [hh] at hx
        simp at hx
        rw [hx]
        exact ht
      | ok t2 =>
        rw [hh] at hx
        dsimp only at hx
        by_cases hat : attempt + 1 ≥ 3
        · rw [if_pos hat] at hx
          simp at hx
          rw [hx]
          exact ht
        · rw [if_neg hat] at hx
          simp at hx
          rcases hx with hx | hx
          · rw [hx]
            exact ht
          · exact ih (attempt + 1) t2 (handle_token_expiry_ok_truthy hh) x hx

/-- All attempts of the retry loop after the first carry a truthy access
token (the first carries whatever the global state held). -/
theorem downloadLoop_tail_truthy (name : String) (envs : Nat → AttemptEnv)
    (fuel attempt : Nat) (t : Tokens) :
    ∀ x ∈ (downloadLoop name envs fuel attempt t).1.tail, truthy x = true := by
  intro x hx
  cases fuel with
  | zero => cases hx
  | succ fuel =>
    by_cases hok : (envs attempt).getOk = true
    · simp [downloadLoop, hok] at hx
    · rw [Bool.not_eq_true] at hok
      simp only [downloadLoop] at hx
      rw [if_neg (by rw [hok]; exact Bool.false_ne_true)] at hx
      cases hh : handle_token_expiry (envs attempt).refreshResp (envs attempt).authResp t with
      | error msg =>
        rw [hh] at hx
        simp at hx
      | ok t2 =>
        rw [hh] at hx
        dsimp only at hx
        by_cases hat : attempt + 1 ≥ 3
        · rw [if_pos hat] at hx
          simp at hx
        · rw [if_neg hat] at hx
          simp at hx
          exact downloadLoop_trace_truthy name envs fuel (attempt + 1) t2
            (handle_token_expiry_ok_truthy hh) x hx

/-- Three consecutive failed attempts (with successful token refreshes in
between) make the retry loop raise the product-scoped exhaustion error,
whose message carries the product name and the last transport error. -/
theorem downloadLoop_three_failures (name : String) (envs : Nat → AttemptEnv) (t : Tokens)
    (h0 : (envs 0).getOk = false) (h1 : (envs 1).getOk = false) (h2 : (envs 2).getOk = false)
    (r0 : truthy (regenerate_access_token (envs 0).refreshResp) = true)
    (r1 : truthy (regenerate_access_token (envs 1).refreshResp) = true)
    (r2 : truthy (regenerate_access_token (envs 2).refreshResp) = true) :
    (downloadLoop name envs 3 0 t).2 =
      Except.error ("Too many failed attempts for " ++ name ++ ": " ++ (envs 2).err) := by
  simp [downloadLoop, h0, h1, h2, handle_token_expiry, r0, r1, r2]

/-- An exception raised while downloading the first work item propagates
out of the module-level loop: the run ends with that error. -/
theorem run_downloads_head_error {t : Tokens} {e : String} {it : WorkItem}
    {rest : List WorkItem}
    (h : (download_product it.fileExists it.name it.envs t).2 = Except.error e) :
    (run_downloads t (it :: rest)).2 = Except.error e := by
  unfold run_downloads
  cases hd : download_product it.fileExists it.name it.envs t with
  | mk tr out =>
    rw [hd] at h
    dsimp at h
    subst h
    rfl

/-- A transport failure stops the crawl: the products are exactly those of
the fully consumed pages before it, whatever follows. -/
theorem crawl_append_failure (pre post : List PageOutcome)
    (h : ∀ pg ∈ pre, okNext pg = true) :
    crawl (pre ++ PageOutcome.failure :: post) = crawl pre := by
  induction pre with
  | nil => rfl
  | cons pg rest ih =>
    have hpg := h pg (List.mem_cons_self _ _)
    cases pg with
    | failure => cases hpg
    | ok ps next =>
      cases next with
      | false => cases hpg
      | true =>
        simp only [List.cons_append, crawl, if_true]
        exact congrArg (ps ++ ·) (ih (fun x hx => h x (List.mem_cons_of_mem _ hx)))

/-- No catalog request ever carries an Authorization header. -/
theorem crawlRequests_false (pages : List PageOutcome) :
    ∀ b ∈ crawlRequests pages, b = false := by
  induction pages with
  | nil => intro b hb; cases hb
  | cons pg rest ih =>
    intro b hb
    cases pg with
    | failure => simpa [crawlRequests] using hb
    | ok ps next =>
      cases next with
      | true =>
        rcases List.mem_cons.1 hb with hb | hb
        · exact hb
        · exact ih b hb
      | false => simpa [crawlRequests] using hb

/-- The dates of the parsed entries form a sublist of the dates of the
product stream. -/
theorem parsedEntries_dates_sublist (ps : List Product) :
    ((parsedEntries ps).map dateOf).Sublist (ps.map dateKey) := by
  induction ps with
  | nil => simp [parsedEntries]
  | cons p rest ih =>
    unfold parsedEntries
    rw [List.filterMap_cons]
    cases h : searchBaseline p.name with
    | none =>
      simp only [Option.map_none']
      exact List.Sublist.cons _ ih
    | some n =>
      simp only [Option.map_some', List.map_cons]
      exact List.Sublist.cons₂ _ ih

/-- The first element of a list satisfying a predicate, exhibited by a
decomposition whose prefix refutes it. -/
theorem find?_of_decomp {α : Type} (p : α → Bool) (pre post : List α) (m : α)
    (hpre : ∀ y ∈ pre, p y = false) (hm : p m = true) :
    (pre ++ m :: post).find? p = some m := by
  induction pre with
  | nil => simp [List.find?_cons, hm]
  | cons a pre ih =>
    rw [List.cons_append, List.find?_cons_of_neg _ (by simp [hpre a (List.mem_cons_self _ _)])]
    exact ih (fun y hy => hpre y (List.mem_cons_of_mem _ hy))

/-- Every group of the date map is nonempty and holds only entries of its
key's date. -/
theorem groupEntries_group_facts {es : List Entry} {d : String} {g : List Entry}
    (h : (d, g) ∈ groupEntries es) : g ≠ [] ∧ ∀ x ∈ g, dateOf x = d := by
  obtain ⟨hnd, hval, hkey, hkeyrev⟩ := inv_groupEntries es
  have hg := hval d g h
  constructor
  · obtain ⟨x, hx, hxd⟩ := hkeyrev d (List.mem_map_of_mem Prod.fst h)
    have hxg : x ∈ g := by
      rw [hg]
      exact mem_entriesFor.2 ⟨hx, hxd⟩
    exact List.ne_nil_of_mem hxg
  · intro x hx
    rw [hg] at hx
    exact (mem_entriesFor.1 hx).2

/-- The dates of the fetched product list are exactly the keys of the date
map built from the crawled stream, in insertion order. -/
theorem fetch_products_map_dateKey (pages : List PageOutcome) :
    (fetch_products pages).map dateKey =
      (groupEntries (parsedEntries (crawl pages))).map Prod.fst := by
  rw [fetch_products_eq]
  apply select_latest_map_dateKey
  · intro p hp
    obtain ⟨d, g⟩ := p
    exact (groupEntries_group_facts hp).1
  · intro p hp x hx
    obtain ⟨d, g⟩ := p
    exact (groupEntries_group_facts hp).2 x hx

/-!  Claim theorems. -/

/-- C7: for all outcomes of the two token-endpoint calls,
`handle_token_expiry` first attempts a refresh and adopts its token when one
is yielded (keeping the refresh token); when the refresh yields nothing it
re-authenticates with freshly reloaded credentials, replacing both tokens;
when re-authentication also yields no token it raises the fatal
re-authentication error.  Moreover a failed refresh request yields `None`
rather than an exception. -/
theorem c7_expiry_refresh_then_reauth (rResp aResp : Option TokenResponse) (t : Tokens) :
    (truthy (regenerate_access_token rResp) = true →
      handle_token_expiry rResp aResp t =
        Except.ok { access := regenerate_access_token rResp, refresh := t.refresh }) ∧
    (truthy (regenerate_access_token rResp) = false →
      truthy (get_access_token aResp).1 = true →
      handle_token_expiry rResp aResp t =
        Except.ok { access := (get_access_token aResp).1,
                    refresh := (get_access_token aResp).2 }) ∧
    (truthy (regenerate_access_token rResp) = false →
      truthy (get_access_token aResp).1 = false →
      handle_token_expiry rResp aResp t = Except.error reauthMsg) ∧
    regenerate_access_token none = none := by
  refine ⟨?_, ?_, ?_, rfl⟩
  · intro h
    simp [handle_token_expiry, h]
  · intro h1 h2
    simp [handle_token_expiry, h1, h2]
  · intro h1 h2
    simp [handle_token_expiry, h1, h2]

/-- Witness for C7: a concrete refresh that yields a token is adopted with
the refresh token kept. -/
theorem c7_expiry_refresh_then_reauth_witness :
    handle_token_expiry (some { access_token := some "a2", refresh_token := some "r2" })
        none { access := some "a1", refresh := some "r1" } =
      Except.ok { access := some "a2", refresh := some "r1" } :=
  (c7_expiry_refresh_then_reauth
    (some { access_token := some "a2", refresh_token := some "r2" }) none
    { access := some "a1", refresh := some "r1" }).1 (by decide)

/-- C8: when the target file already exists, `download_product` returns at
once: it issues zero network requests, raises no error, and leaves the token
state untouched, so re-running over already-downloaded products is
idempotent. -/
theorem c8_existing_file_skips_download (name : String) (envs : Nat → AttemptEnv)
    (t : Tokens) : download_product true name envs t = ([], Except.ok t) := rfl

/-- C9: a transport failure on a catalog page stops the pagination without
raising (the fetch is a total function) and without consuming any later
page: the result is exactly the deduplicated products of the pages fetched
before the failure. -/
theorem c9_pagination_failure_truncates (pre post : List PageOutcome)
    (h : ∀ pg ∈ pre, okNext pg = true) :
    fetch_products (pre ++ PageOutcome.failure :: post) = fetch_products pre := by
  rw [fetch_products_eq, fetch_products_eq, crawl_append_failure pre post h]

/-- Witness for C9: one successful page followed by a failed request yields
exactly the first page's deduplicated products, whatever pages follow. -/
theorem c9_pagination_failure_truncates_witness :
    fetch_products (c9pre ++ PageOutcome.failure :: c9post) = fetch_products c9pre :=
  c9_pagination_failure_truncates c9pre c9post (by decide)

/-- C1 (amended): after three consecutive failed attempts the download
raises an error naming the product, but the module-level loop has no
handler, so the exception aborts the whole run: the remaining work items
are never processed, whatever they are. -/
theorem c1_three_failures_error_aborts_run (name : String) (envs : Nat → AttemptEnv)
    (t : Tokens)
    (h0 : (envs 0).getOk = false) (h1 : (envs 1).getOk = false) (h2 : (envs 2).getOk = false)
    (r0 : truthy (regenerate_access_token (envs 0).refreshResp) = true)
    (r1 : truthy (regenerate_access_token (envs 1).refreshResp) = true)
    (r2 : truthy (regenerate_access_token (envs 2).refreshResp) = true) :
    (download_product false name envs t).2 =
      Except.error ("Too many failed attempts for " ++ name ++ ": " ++ (envs 2).err) ∧
    ∀ rest : List WorkItem,
      (run_downloads t ({ fileExists := false, name := name, envs := envs } :: rest)).2 =
        Except.error ("Too many failed attempts for " ++ name ++ ": " ++ (envs 2).err) := by
  have hdl : (download_product false name envs t).2 =
      Except.error ("Too many failed attempts for " ++ name ++ ": " ++ (envs 2).err) :=
    downloadLoop_three_failures name envs t h0 h1 h2 r0 r1 r2
  exact ⟨hdl, fun rest => run_downloads_head_error hdl⟩

/-- Witness for C1 (amended): the concrete all-failing item produces the
product-named error and the run over it errors out. -/
theorem c1_three_failures_error_aborts_run_witness :
    (download_product false "P1" (fun _ => c1failEnv)
        { access := some "a", refresh := some "r" }).2 =
      Except.error ("Too many failed attempts for " ++ "P1" ++ ": " ++ c1failEnv.err) ∧
    ∀ rest : List WorkItem,
      (run_downloads { access := some "a", refresh := some "r" }
          ({ fileExists := false, name := "P1", envs := fun _ => c1failEnv } :: rest)).2 =
        Except.error ("Too many failed attempts for " ++ "P1" ++ ": " ++ c1failEnv.err) :=
  c1_three_failures_error_aborts_run "P1" (fun _ => c1failEnv)
    { access := some "a", refresh := some "r" } rfl rfl rfl (by decide) (by decide) (by decide)

/-- Counterexample for C1 as stated: with a first item failing all three
attempts and a second item ready to download, the run ends in the error of
the first item — the trace shows only the first item's three attempts and
the second item is never processed, so the orchestrator does not continue. -/
theorem c1_counterexample :
    run_downloads { access := some "a", refresh := some "r" } [c1badItem, c1goodItem] =
      ([some "a", some "tok2", some "tok2"],
        Except.error "Too many failed attempts for P1: boom") := rfl

/-- C6 (amended): every retry attempt (all attempts after the first) is
issued only after `handle_token_expiry` returned, so it carries the truthy
access token that the refresh-or-reauth cycle produced; the first attempt,
however, carries whatever the global state held. -/
theorem c6_retries_carry_refreshed_token (name : String) (envs : Nat → AttemptEnv)
    (t : Tokens) :
    ∀ x ∈ (download_product false name envs t).1.tail, truthy x = true := by
  intro x hx
  exact downloadLoop_tail_truthy name envs 3 0 t x hx

/-- Witness for C6 (amended): in a run whose first attempt fails and whose
retry succeeds, the retry carries the freshly refreshed token. -/
theorem c6_retries_carry_refreshed_token_witness : truthy (some "fresh") = true :=
  c6_retries_carry_refreshed_token "P" c6envs { access := none, refresh := none }
    (some "fresh") (by decide)

/-- Counterexample for C6 as stated: when the initial authentication fails,
the script still proceeds; its event trace shows a bearer download request
issued while the token pair is empty (`Bearer None`), violating the claimed
invariant. -/
theorem c6_counterexample :
    (script [PageOutcome.ok [c6prod] false] { access := none, refresh := none } none
        (fun _ => false)
        (fun _ _ => { getOk := true, refreshResp := none, authResp := none, err := "" })).trace =
      [Ev.catalogGet false, Ev.credLoad, Ev.tokenRequest, Ev.downloadGet none] := rfl

/-- C2: for every acquisition date for which some crawled product has a
parseable baseline, exactly one product of that date survives
deduplication, its name parses, and its baseline number is maximal among
the parseable crawled products of that date. -/
theorem c2_single_max_baseline_per_date (pages : List PageOutcome) (d : String)
    (hd : ∃ p ∈ crawl pages, (searchBaseline p.name).isSome = true ∧ dateKey p = d) :
    (fetch_products pages).countP (fun q => dateKey q == d) = 1 ∧
    ∀ q ∈ fetch_products pages, dateKey q = d →
      (searchBaseline q.name).isSome = true ∧
      ∀ p ∈ crawl pages, (searchBaseline p.name).isSome = true → dateKey p = d →
        baselineOf p ≤ baselineOf q := by
  obtain ⟨p, hp, hps, hpd⟩ := hd
  obtain ⟨n, hn⟩ := Option.isSome_iff_exists.1 hps
  have hpe : (n, p) ∈ parsedEntries (crawl pages) := mem_parsedEntries.2 ⟨hp, hn⟩
  obtain ⟨hnd, hval, hkey, hkeyrev⟩ := inv_groupEntries (parsedEntries (crawl pages))
  have hdkeys : d ∈ (groupEntries (parsedEntries (crawl pages))).map Prod.fst := by
    have hk := hkey (n, p) hpe
    rw [show dateOf (n, p) = d from hpd] at hk
    exact hk
  constructor
  · have hcm : (fetch_products pages).countP (fun q => dateKey q == d) =
        ((fetch_products pages).map dateKey).countP (fun s => s == d) := by
      rw [List.countP_map]
      rfl
    rw [hcm, fetch_products_map_dateKey]
    have hle := List.nodup_iff_count_le_one.1 hnd d
    have hge := List.count_pos_iff.2 hdkeys
    rw [List.count] at hle hge
    exact Nat.le_antisymm hle hge
  · intro q hq hqd
    rw [fetch_products_eq] at hq
    obtain ⟨d2, g, m, hg, hm, hmq⟩ := mem_select_latest hq
    obtain ⟨mn, mp⟩ := m
    dsimp at hmq
    subst hmq
    have hmg : (mn, mp) ∈ g := pyMax_mem hm
    have hd2 : d2 = d := by
      rw [← hqd]
      exact ((groupEntries_group_facts hg).2 _ hmg).symm
    subst hd2
    have hge : g = entriesFor (parsedEntries (crawl pages)) d2 := hval _ _ hg
    have hsb : searchBaseline mp.name = some mn := by
      rw [hge] at hmg
      exact (mem_parsedEntries.1 (mem_entriesFor.1 hmg).1).2
    have hbq : baselineOf mp = mn := by
      rw [baselineOf, hsb]
      rfl
    refine ⟨by rw [hsb]; rfl, ?_⟩
    intro p2 hp2 hp2s hp2d
    obtain ⟨n2, hn2⟩ := Option.isSome_iff_exists.1 hp2s
    have hp2e : (n2, p2) ∈ entriesFor (parsedEntries (crawl pages)) d2 :=
      mem_entriesFor.2 ⟨mem_parsedEntries.2 ⟨hp2, hn2⟩, hp2d⟩
    rw [← hge] at hp2e
    have hle := pyMax_le hm (n2, p2) hp2e
    rw [baselineOf, hn2, hbq]
    exact hle

/-- Witness for C2: on a page holding a baseline-0400 and a baseline-0500
product of the same date, exactly one product of that date survives. -/
theorem c2_single_max_baseline_per_date_witness :
    (fetch_products c2pages).countP (fun q => dateKey q == "2017-05-01") = 1 :=
  (c2_single_max_baseline_per_date c2pages "2017-05-01"
    ⟨c2prodB, by decide, by decide, by decide⟩).1

/-- C3 (amended): the deduplicated list is sorted by acquisition date
ascending whenever the crawled products arrive in non-decreasing date order
(which the request's server-side ascending sort provides); in general the
output follows the first-occurrence order of the dates, not a sort. -/
theorem c3_sorted_when_arrival_sorted (pages : List PageOutcome)
    (h : ((crawl pages).map dateKey).Pairwise (fun a b => dateLe a b = true)) :
    ((fetch_products pages).map dateKey).Pairwise (fun a b => dateLe a b = true) := by
  rw [fetch_products_map_dateKey]
  apply groupEntries_keys_sorted
  have hsub : ((parsedEntries (crawl pages)).map dateOf).Sublist
      ((crawl pages).map dateKey) := parsedEntries_dates_sublist (crawl pages)
  exact h.sublist hsub

/-- Witness for C3 (amended): with pages arriving date-sorted the output
dates are sorted. -/
theorem c3_sorted_when_arrival_sorted_witness :
    ((fetch_products c3wpages).map dateKey).Pairwise (fun a b => dateLe a b = true) :=
  c3_sorted_when_arrival_sorted c3wpages (by decide)

/-- Counterexample for C3 as stated: when the later date arrives first the
output preserves arrival order of dates and is not sorted ascending — the
code never sorts the grouped dates. -/
theorem c3_counterexample :
    (fetch_products c3pages).map dateKey = ["2017-02-01", "2017-01-01"] ∧
    ¬ (((fetch_products c3pages).map dateKey).Pairwise (fun a b => dateLe a b = true)) := by
  constructor
  · rfl
  · decide

/-- C4 (amended): within a date group the selected entry is the first
encountered among those attaining the maximal baseline: every group entry
has a baseline at most the selected one's, and the first entry whose
baseline equals it is exactly the selected entry — ties therefore resolve
to the entry the grouping encountered first, not last. -/
theorem c4_tie_selects_first_encountered (pages : List PageOutcome) (q : Product)
    (d : String) (hq : q ∈ fetch_products pages) (hd : dateKey q = d) :
    (∀ y ∈ entriesFor (parsedEntries (crawl pages)) d, y.1 ≤ baselineOf q) ∧
    (entriesFor (parsedEntries (crawl pages)) d).find? (fun y => y.1 == baselineOf q) =
      some (baselineOf q, q) := by
  rw [fetch_products_eq] at hq
  obtain ⟨d2, g, m, hg, hm, hmq⟩ := mem_select_latest hq
  obtain ⟨mn, mp⟩ := m
  dsimp at hmq
  subst hmq
  have hmg : (mn, mp) ∈ g := pyMax_mem hm
  have hd2 : d2 = d := by
    rw [← hd]
    exact ((groupEntries_group_facts hg).2 _ hmg).symm
  subst hd2
  have hge : g = entriesFor (parsedEntries (crawl pages)) d2 :=
    (inv_groupEntries (parsedEntries (crawl pages))).2.1 _ _ hg
  have hsb : searchBaseline mp.name = some mn := by
    rw [hge] at hmg
    exact (mem_parsedEntries.1 (mem_entriesFor.1 hmg).1).2
  have hbq : baselineOf mp = mn := by
    rw [baselineOf, hsb]
    rfl
  constructor
  · intro y hy
    rw [← hge] at hy
    rw [hbq]
    exact pyMax_le hm y hy
  · obtain ⟨pre, post, hdec, hpre⟩ := pyMax_first hm
    rw [hbq, ← hge, hdec]
    apply find?_of_decomp
    · intro y hy
      have hlt := hpre y hy
      simp only [beq_eq_false_iff_ne, ne_eq]
      exact Nat.ne_of_lt hlt
    · simp

/-- Witness for C4 (amended): on the concrete baseline tie, the first entry
attaining the maximum is the selected one. -/
theorem c4_tie_selects_first_encountered_witness :
    (entriesFor (parsedEntries (crawl c4pages)) "2017-03-03").find?
        (fun y => y.1 == baselineOf c4prodFirst) =
      some (baselineOf c4prodFirst, c4prodFirst) :=
  (c4_tie_selects_first_encountered c4pages c4prodFirst "2017-03-03"
    (by decide) (by decide)).2

/-- Counterexample for C4 as stated: two same-date entries with equal
maximal baselines; the survivor is the first-encountered product, not the
one encountered last. -/
theorem c4_counterexample :
    fetch_products c4pages = [c4prodFirst] ∧ c4prodFirst ≠ c4prodSecond := by
  constructor
  · rfl
  · decide

/-- C5 (amended): a fetched product whose display name does not contain the
baseline pattern is dropped entirely — every product surviving the fetch
has a parseable name, so non-matching products are excluded from the result
as well as from the comparison. -/
theorem c5_nonmatching_names_dropped (pages : List PageOutcome) (q : Product)
    (hq : q ∈ fetch_products pages) : (searchBaseline q.name).isSome = true := by
  rw [fetch_products_eq] at hq
  obtain ⟨d2, g, m, hg, hm, hmq⟩ := mem_select_latest hq
  obtain ⟨mn, mp⟩ := m
  dsimp at hmq
  subst hmq
  have hmg : (mn, mp) ∈ g := pyMax_mem hm
  have hge : g = entriesFor (parsedEntries (crawl pages)) d2 :=
    (inv_groupEntries (parsedEntries (crawl pages))).2.1 _ _ hg
  rw [hge] at hmg
  have hsb := (mem_parsedEntries.1 (mem_entriesFor.1 hmg).1).2
  rw [hsb]
  rfl

/-- Witness for C5 (amended): the concrete parseable product survives and
its name parses. -/
theorem c5_nonmatching_names_dropped_witness :
    (searchBaseline c5prodGood.name).isSome = true :=
  c5_nonmatching_names_dropped c5wpages c5prodGood (by decide)

/-- Counterexample for C5 as stated: a fetched product whose name lacks the
pattern is not retained — the fetch result is empty, not a list containing
it. -/
theorem c5_counterexample :
    searchBaseline c5prodBad.name = none ∧ fetch_products c5pages = [] := ⟨rfl, rfl⟩

/-- C10: catalog retrieval is independent of authentication state: no
catalog request carries an Authorization header; the product list of a run
does not change when only the initial token state and the bootstrap
authentication reply change; and in the run's event trace every catalog GET
precedes every credential load and token request. -/
theorem c10_catalog_independent_of_tokens (pages : List PageOutcome)
    (t0 t0' : Tokens) (aResp aResp' : Option TokenResponse)
    (fe : Product → Bool) (envs : Product → Nat → AttemptEnv) :
    (∀ b ∈ crawlRequests pages, b = false) ∧
    (script pages t0 aResp fe envs).products = (script pages t0' aResp' fe envs).products ∧
    (∀ i j ei ej, (script pages t0 aResp fe envs).trace.get? i = some ei →
      (script pages t0 aResp fe envs).trace.get? j = some ej →
      isCatalogGet ei = true → isCredEvent ej = true → i < j) := by
  refine ⟨crawlRequests_false pages, rfl, ?_⟩
  have hsplit : (script pages t0 aResp fe envs).trace =
      (crawlRequests pages).map Ev.catalogGet ++
        (initEvents t0 ++
          (run_downloads (init_tokens t0 aResp)
            ((fetch_products pages).map
              (fun p => { fileExists := fe p, name := p.name, envs := envs p }))).1.map
            Ev.downloadGet) := by
    simp [script]
  have hA : ∀ e ∈ (crawlRequests pages).map Ev.catalogGet, isCredEvent e = false := by
    intro e he
    obtain ⟨b, _, hb⟩ := List.mem_map.1 he
    rw [← hb]
    rfl
  have hB : ∀ e ∈ initEvents t0 ++
      (run_downloads (init_tokens t0 aResp)
        ((fetch_products pages).map
          (fun p => { fileExists := fe p, name := p.name, envs := envs p }))).1.map
        Ev.downloadGet, isCatalogGet e = false := by
    intro e he
    rcases List.mem_append.1 he with he | he
    · rw [initEvents] at he
      by_cases h0 : truthy t0.access = true
      · rw [if_pos h0] at he
        cases he
      · rw [if_neg h0] at he
        rcases List.mem_cons.1 he with he | he
        · rw [he]; rfl
        · rcases List.mem_cons.1 he with he | he
          · rw [he]; rfl
          · cases he
    · obtain ⟨tok, _, htok⟩ := List.mem_map.1 he
      rw [← htok]
      rfl
  intro i j ei ej hgi hgj hci hcj
  rw [hsplit] at hgi hgj
  have hiA : i < ((crawlRequests pages).map Ev.catalogGet).length := by
    by_contra hge
    push_neg at hge
    rw [List.get?_append_right hge] at hgi
    have hmem := List.get?_mem hgi
    rw [hB ei hmem] at hci
    cases hci
  have hjB : ((crawlRequests pages).map Ev.catalogGet).length ≤ j := by
    by_contra hlt
    push_neg at hlt
    rw [List.get?_append hlt] at hgj
    have hmem := List.get?_mem hgj
    rw [hA ej hmem] at hcj
    cases hcj
  exact Nat.lt_of_lt_of_le hiA hjB

/-- Witness for C10: on the concrete one-page run the product lists of two
runs differing only in the token state coincide. -/
theorem c10_catalog_independent_of_tokens_witness :
    (script c10pages { access := some "x", refresh := some "y" } none
        (fun _ => false) c10envs).products =
      (script c10pages { access := none, refresh := none }
        (some { access_token := some "a", refresh_token := some "r" })
        (fun _ => false) c10envs).products :=
  (c10_catalog_independent_of_tokens c10pages
    { access := some "x", refresh := some "y" } { access := none, refresh := none }
    none (some { access_token := some "a", refresh_token := some "r" })
    (fun _ => false) c10envs).2.1
